import Mathlib

set_option maxHeartbeats 1000000

namespace Sockress

/-! Shallow embedding of the sockress server (src/unnamed/part_002) and client
(src/client/src/index.ts).  Definitions are translated from the TypeScript
source; JS objects with string keys become insertion-ordered association
lists, JS exceptions become `Option`/`Except`, and the asynchronous
continuation-passing dispatch loop becomes a structurally recursive state
machine over the composed layer stack. -/

/-- JSON-like values (model of the JS values handed to `res.json` and carried
in socket envelopes). -/
inductive JValue where
  | null
  | bool (b : Bool)
  | num (n : Int)
  | str (s : String)
  | arr (xs : List JValue)
  | obj (fields : List (String × JValue))

/-- CORS configuration, from `CorsOptions` (the `origin` field is modelled
separately as `OriginConfig` because it is consulted by different code). -/
structure CorsOptions where
  credentials : Bool
  methods : List String
  allowedHeaders : List String
  exposedHeaders : List String
  maxAge : Nat
deriving DecidableEq

/-- `RequestMode` from the source: which transport the response closes over. -/
inductive RequestMode where
  | http
  | socket (requestId : String)
deriving DecidableEq

/-- The payload categories `SockressResponse.send` discriminates on:
`Buffer`, `string`, and everything else (JSON-encoded).  `undefined`/`null`
payloads are the `none` case of `Option Payload`. -/
inductive Payload where
  | buffer (bytes : List Nat)
  | str (s : String)
  | jval (v : JValue)

/-- Lookup in a JS-object-like association list. -/
def lookupAssoc (hs : List (String × String)) (k : String) : Option String :=
  match hs with
  | [] => none
  | (k0, v) :: rest => if k0 = k then some v else lookupAssoc rest k

/-- JS object assignment `obj[k] = v`: overwrite in place, else append. -/
def setAssoc (hs : List (String × String)) (k v : String) : List (String × String) :=
  match hs with
  | [] => [(k, v)]
  | (k0, v0) :: rest => if k0 = k then (k0, v) :: rest else (k0, v0) :: setAssoc rest k v

def joinComma (xs : List String) : String := String.intercalate ", " xs

/-- State of a `SockressResponse` (statusCode, one-way `sent` latch, header
map with lowercased keys, cookie list) plus the construction-time mode and
CORS data. -/
structure SockressResponse where
  mode : RequestMode
  cors : CorsOptions
  allowedOrigin : String
  statusCode : Nat := 200
  sent : Bool := false
  headers : List (String × String) := []
  cookies : List String := []

/-- One message actually written through the transport by `send`: the
observable output of a response (status, headers, cookies, body). -/
structure EmittedResponse where
  transport : RequestMode
  status : Nat
  headers : List (String × String)
  cookies : List String
  body : Option Payload

namespace SockressResponse

def status (r : SockressResponse) (code : Nat) : SockressResponse :=
  { r with statusCode := code }

def setHeader (r : SockressResponse) (field value : String) : SockressResponse :=
  { r with headers := setAssoc r.headers field.toLower value }

/-- `buildHeaders`: copy of the instance headers with the six CORS headers
assigned on top. -/
def buildHeaders (r : SockressResponse) : List (String × String) :=
  let h := setAssoc r.headers "access-control-allow-origin" r.allowedOrigin
  let h := setAssoc h "access-control-allow-credentials" (toString r.cors.credentials)
  let h := setAssoc h "access-control-allow-methods" (joinComma r.cors.methods)
  let h := setAssoc h "access-control-allow-headers" (joinComma r.cors.allowedHeaders)
  let h := setAssoc h "access-control-expose-headers" (joinComma r.cors.exposedHeaders)
  setAssoc h "access-control-max-age" (toString r.cors.maxAge)

/-- `SockressResponse.send`.  Returns the updated response together with the
message emitted through the transport (`none` when the `sent` latch
suppressed the write).  The `content-type` defaulting for string payloads,
the CORS header merge, and the raw-response `content-type` override in the
HTTP JSON branch follow the source order. -/
def send (r : SockressResponse) (payload : Option Payload) :
    SockressResponse × Option EmittedResponse :=
  if r.sent then (r, none) else
  let r1 : SockressResponse := { r with sent := true }
  let r2 : SockressResponse :=
    match payload with
    | some (.str _) =>
      if lookupAssoc r1.headers "content-type" = none then
        r1.setHeader "content-type" "text/plain; charset=utf-8"
      else r1
    | _ => r1
  let headersWithCors := r2.buildHeaders
  match r2.mode with
  | .http =>
    let wireHeaders :=
      match payload with
      | some (.jval _) =>
        if lookupAssoc r2.headers "content-type" = none then
          setAssoc headersWithCors "content-type" "application/json; charset=utf-8"
        else headersWithCors
      | _ => headersWithCors
    (r2, some { transport := .http, status := r2.statusCode, headers := wireHeaders,
                cookies := r2.cookies, body := payload })
  | .socket requestId =>
    (r2, some { transport := .socket requestId, status := r2.statusCode,
                headers := headersWithCors, cookies := r2.cookies, body := payload })

/-- `res.json(payload)`: set the JSON content type, then `send`. -/
def json (r : SockressResponse) (payload : JValue) :
    SockressResponse × Option EmittedResponse :=
  (r.setHeader "content-type" "application/json; charset=utf-8").send (some (.jval payload))

def isSent (r : SockressResponse) : Bool := r.sent

end SockressResponse

/-! ## Dispatch engine (`SockressApp.runPipeline`)

A handler in the source receives `(req, res, next)` (or `(err, req, res,
next)` for error handlers) and can write to the response, call `next`
(optionally with an error), or throw.  Handler bodies are modelled by the
finite behaviour alphabet `HBehavior`; a layer of the composed stack carries
its behaviour plus the structural `isErrorHandler` flag the engine branches
on.  `label` identifies the layer in the invocation trace. -/

inductive HBehavior where
  | callNext
  | callNextWith (errMsg : String)
  | throwError (errMsg : String)
  | respond (status : Nat) (body : JValue)
  | respondThenNext (status : Nat) (body : JValue)

structure Layer where
  label : Nat
  isErrorHandler : Bool
  onRun : HBehavior
  onError : String → HBehavior

/-- Pipeline execution state: the response, the messages emitted so far, and
the trace of handler invocations `(label, pending error)`. -/
structure PipelineState where
  res : SockressResponse
  out : List EmittedResponse
  trace : List (Nat × Option String)

/-- `res.status(code).json(body)` inside the pipeline, recording emission. -/
def respondJson (statusCode : Nat) (body : JValue) (s : PipelineState) : PipelineState :=
  let p := (s.res.status statusCode).json body
  { s with res := p.1, out := s.out ++ p.2.toList }

def notFoundJson : JValue := .obj [("error", .str "Not Found")]

def internalErrorJson (msg : String) : JValue :=
  .obj [("error", .str "Internal Server Error"), ("details", .str msg)]

/-- `SockressApp.renderError`: a terminal JSON 500 unless already sent. -/
def renderError (errMsg : String) (s : PipelineState) : PipelineState :=
  if s.res.sent then s else respondJson 500 (internalErrorJson errMsg) s

/-- The engine's synthetic 404: `res.status(404).json(error Not Found)`. -/
def notFoundFallback (s : PipelineState) : PipelineState :=
  respondJson 404 notFoundJson s

/-- Record that a layer was invoked (with the pending error, if any). -/
def invoke (s : PipelineState) (label : Nat) (err : Option String) : PipelineState :=
  { s with trace := s.trace ++ [(label, err)] }

/-- Run one handler body: the state after its writes, and `some e?` when it
calls the continuation (a thrown error is caught by the engine's
`catch` and fed back into `next`, so `throwError` and `callNextWith`
continue identically). -/
def runBehavior (b : HBehavior) (s : PipelineState) :
    PipelineState × Option (Option String) :=
  match b with
  | .callNext => (s, some none)
  | .callNextWith e => (s, some (some e))
  | .throwError e => (s, some (some e))
  | .respond st body => (respondJson st body s, none)
  | .respondThenNext st body => (respondJson st body s, some none)

/-- `SockressApp.runPipeline`'s `next` closure, as a state machine over the
remaining stack and the pending error:
layer exhaustion renders the pending error or the 404 fallback;
with an error pending, non-error-handler layers are skipped;
with no error pending, error-handler layers are skipped;
otherwise the layer is invoked. -/
def runPipeline : List Layer → Option String → PipelineState → PipelineState
  | [], some e, s => renderError e s
  | [], none, s => if s.res.sent then s else notFoundFallback s
  | l :: rest, some e, s =>
    if l.isErrorHandler then
      match runBehavior (l.onError e) (invoke s l.label (some e)) with
      | (s2, some nextErr) => runPipeline rest nextErr s2
      | (s2, none) => s2
    else runPipeline rest (some e) s
  | l :: rest, none, s =>
    if l.isErrorHandler then runPipeline rest none s
    else
      match runBehavior l.onRun (invoke s l.label none) with
      | (s2, some nextErr) => runPipeline rest nextErr s2
      | (s2, none) => s2

/-! ### Basic lemmas about `send` and the pipeline -/

theorem send_already_sent (r : SockressResponse) (p : Option Payload)
    (h : r.sent = true) : r.send p = (r, none) := by
  simp [SockressResponse.send, h]

theorem send_fst_sent (r : SockressResponse) (p : Option Payload) :
    (r.send p).1.sent = true := by
  by_cases h : r.sent = true
  · simp [SockressResponse.send, h]
  · simp only [Bool.not_eq_true] at h
    rcases r with ⟨(_ | rid), cors, ao, sc, snt, hs, ck⟩ <;>
      · simp only at h; subst h
        rcases p with _ | (_ | _ | _) <;>
          · simp only [SockressResponse.send, SockressResponse.setHeader]
            split_ifs <;> simp_all

theorem send_emits (r : SockressResponse) (p : Option Payload) (h : r.sent = false) :
    ∃ em, (r.send p).2 = some em ∧ em.status = r.statusCode ∧ em.body = p ∧
      em.transport = r.mode := by
  rcases r with ⟨(_ | rid), cors, ao, sc, snt, hs, ck⟩ <;>
    · simp only at h; subst h
      rcases p with _ | (_ | _ | _) <;>
        · simp only [SockressResponse.send, SockressResponse.setHeader]
          split_ifs <;> simp_all

theorem respondJson_trace (st : Nat) (b : JValue) (s : PipelineState) :
    (respondJson st b s).trace = s.trace := rfl

theorem send_fst_mode (r : SockressResponse) (p : Option Payload) :
    (r.send p).1.mode = r.mode := by
  by_cases h : r.sent = true
  · simp [SockressResponse.send, h]
  · simp only [Bool.not_eq_true] at h
    rcases r with ⟨(_ | rid), cors, ao, sc, snt, hs, ck⟩ <;>
      · simp only at h; subst h
        rcases p with _ | (_ | _ | _) <;>
          · simp only [SockressResponse.send, SockressResponse.setHeader]
            split_ifs <;> simp_all

theorem respondJson_mode (st : Nat) (b : JValue) (s : PipelineState) :
    (respondJson st b s).res.mode = s.res.mode := by
  simp only [respondJson, SockressResponse.json]
  exact send_fst_mode ((s.res.status st).setHeader "content-type"
    "application/json; charset=utf-8") (some (Payload.jval b))

theorem respondJson_spec (st : Nat) (b : JValue) (s : PipelineState)
    (h : s.res.sent = false) :
    ∃ em, (respondJson st b s).out = s.out ++ [em] ∧ em.status = st ∧
      em.body = some (Payload.jval b) ∧ em.transport = s.res.mode ∧
      (respondJson st b s).res.sent = true := by
  have hsent : ((s.res.status st).setHeader "content-type"
      "application/json; charset=utf-8").sent = false := h
  obtain ⟨em, hsome, hst, hb, htr⟩ :=
    send_emits ((s.res.status st).setHeader "content-type" "application/json; charset=utf-8")
      (some (Payload.jval b)) hsent
  refine ⟨em, ?_, ?_, hb, htr, ?_⟩
  · simp [respondJson, SockressResponse.json, hsome]
  · simpa [SockressResponse.setHeader, SockressResponse.status] using hst
  · simpa [respondJson, SockressResponse.json] using
      send_fst_sent ((s.res.status st).setHeader "content-type"
        "application/json; charset=utf-8") (some (Payload.jval b))

theorem runBehavior_trace (b : HBehavior) (s : PipelineState) :
    ((runBehavior b s).1).trace = s.trace := by
  cases b <;> rfl

theorem runPipeline_nil_trace (err : Option String) (s : PipelineState) :
    (runPipeline [] err s).trace = s.trace := by
  rcases err with _ | e
  · simp only [runPipeline]; split <;> rfl
  · simp only [runPipeline, renderError]; split <;> rfl

theorem runPipeline_trace_grows :
    ∀ (stack : List Layer) (err : Option String) (s : PipelineState),
      s.trace <+: (runPipeline stack err s).trace := by
  intro stack
  induction stack with
  | nil => intro err s; rw [runPipeline_nil_trace]
  | cons l rest ih =>
    intro err s
    rcases err with _ | e
    · by_cases hl : l.isErrorHandler = true
      · simp only [runPipeline, hl, if_true]
        exact ih none s
      · simp only [Bool.not_eq_true] at hl
        simp only [runPipeline, hl, Bool.false_eq_true, if_neg, not_false_iff]
        rcases hrb : runBehavior l.onRun (invoke s l.label none) with ⟨s2, k⟩
        have htr : s2.trace = s.trace ++ [(l.label, none)] := by
          have := runBehavior_trace l.onRun (invoke s l.label none)
          rw [hrb] at this; exact this
        have hpre : s.trace <+: s2.trace := by
          rw [htr]; exact ⟨[(l.label, none)], rfl⟩
        rcases k with _ | nextErr
        · exact hpre
        · exact hpre.trans (ih nextErr s2)
    · by_cases hl : l.isErrorHandler = true
      · simp only [runPipeline, hl, if_true]
        rcases hrb : runBehavior (l.onError e) (invoke s l.label (some e)) with ⟨s2, k⟩
        have htr : s2.trace = s.trace ++ [(l.label, some e)] := by
          have := runBehavior_trace (l.onError e) (invoke s l.label (some e))
          rw [hrb] at this; exact this
        have hpre : s.trace <+: s2.trace := by
          rw [htr]; exact ⟨[(l.label, some e)], rfl⟩
        rcases k with _ | nextErr
        · exact hpre
        · exact hpre.trans (ih nextErr s2)
      · simp only [Bool.not_eq_true] at hl
        simp only [runPipeline, hl, Bool.false_eq_true, if_neg, not_false_iff]
        exact ih (some e) s

theorem renderError_trace (e : String) (s : PipelineState) :
    (renderError e s).trace = s.trace := by
  unfold renderError; split <;> rfl

/-- With an error pending and no error handler anywhere in the remaining
stack, the engine skips every layer and lands in `renderError`. -/
theorem runPipeline_unwind (stack : List Layer) :
    ∀ (e : String) (s : PipelineState), (∀ l ∈ stack, l.isErrorHandler = false) →
      runPipeline stack (some e) s = renderError e s := by
  induction stack with
  | nil => intro e s _; rfl
  | cons l rest ih =>
    intro e s h
    have hl : l.isErrorHandler = false := h l (List.mem_cons_self _ _)
    simp only [runPipeline, hl, Bool.false_eq_true, if_neg, not_false_iff]
    exact ih e s (fun x hx => h x (List.mem_cons_of_mem _ hx))

/-! ### Concrete fixtures used by the witness theorems -/

/-- The CORS defaults of `normalizeOptions`. -/
def corsDefault : CorsOptions :=
  { credentials := true,
    methods := ["GET", "POST", "PUT", "PATCH", "DELETE", "OPTIONS"],
    allowedHeaders := ["Content-Type", "Authorization", "X-Requested-With"],
    exposedHeaders := [],
    maxAge := 600 }

/-- A freshly constructed response (statusCode 200, nothing sent). -/
def freshResponse (mode : RequestMode) : SockressResponse :=
  { mode := mode, cors := corsDefault, allowedOrigin := "*" }

def initialState (mode : RequestMode) : PipelineState :=
  { res := freshResponse mode, out := [], trace := [] }

def layerA : Layer :=
  { label := 0, isErrorHandler := false, onRun := .callNext, onError := fun _ => .callNext }

def layerB : Layer :=
  { label := 1, isErrorHandler := false, onRun := .callNext, onError := fun _ => .callNext }

def layerE : Layer :=
  { label := 2, isErrorHandler := true, onRun := .callNext,
    onError := fun e => .respond 500 (.str e) }

def layerT : Layer :=
  { label := 3, isErrorHandler := false, onRun := .throwError "boom",
    onError := fun _ => .callNext }

/-! ### Claim theorems C1 - C4 -/

/-- C1: for a request whose composed stack runs to exhaustion with no error
pending and no handler having sent a response (every non-error-handler layer
only calls `next`), the engine emits exactly one 404 response; and when a
response was already sent before exhaustion, it emits no synthetic 404. -/
theorem dispatch_engine_single_404 (stack : List Layer) :
    ∀ s : PipelineState,
      (∀ l ∈ stack, l.isErrorHandler = false → l.onRun = HBehavior.callNext) →
      ((s.res.sent = false →
        ∃ em, (runPipeline stack none s).out = s.out ++ [em] ∧ em.status = 404 ∧
          em.body = some (Payload.jval notFoundJson) ∧
          (runPipeline stack none s).res.sent = true)
      ∧ (s.res.sent = true →
        (runPipeline stack none s).out = s.out ∧ (runPipeline stack none s).res = s.res)) := by
  induction stack with
  | nil =>
    intro s _
    constructor
    · intro hs
      simp only [runPipeline, hs, Bool.false_eq_true, if_neg, not_false_iff,
        notFoundFallback]
      obtain ⟨em, hout, hst, hb, _, hsent⟩ := respondJson_spec 404 notFoundJson s hs
      exact ⟨em, hout, hst, hb, hsent⟩
    · intro hs; simp [runPipeline, hs]
  | cons l rest ih =>
    intro s hlay
    have hrest : ∀ x ∈ rest, x.isErrorHandler = false → x.onRun = HBehavior.callNext :=
      fun x hx => hlay x (List.mem_cons_of_mem _ hx)
    by_cases hl : l.isErrorHandler = true
    · simp only [runPipeline, hl, if_true]
      exact ih s hrest
    · simp only [Bool.not_eq_true] at hl
      have hb : l.onRun = HBehavior.callNext := hlay l (List.mem_cons_self _ _) hl
      simp only [runPipeline, hl, Bool.false_eq_true, if_neg, not_false_iff, hb,
        runBehavior]
      exact ih (invoke s l.label none) hrest

theorem dispatch_engine_single_404_witness :
    ∃ em, (runPipeline [layerA, layerE, layerB] none (initialState .http)).out =
        (initialState .http).out ++ [em] ∧ em.status = 404 ∧
        em.body = some (Payload.jval notFoundJson) ∧
        (runPipeline [layerA, layerE, layerB] none (initialState .http)).res.sent = true :=
  (dispatch_engine_single_404 [layerA, layerE, layerB] (initialState .http)
    (by intro l hl hfalse
        simp only [List.mem_cons, List.not_mem_nil, or_false] at hl
        rcases hl with rfl | rfl | rfl <;> rfl)).1 rfl

/-- C2: when a handler throws and no error handler is registered anywhere in
the stack, the thrown error is caught by the engine and exactly one 500
response is emitted, whose JSON body carries the thrown message in its
`details` field. -/
theorem dispatch_uncaught_error_500 (pre : List Layer) :
    ∀ (thrower : Layer) (post : List Layer) (e : String) (s : PipelineState),
      (∀ l ∈ pre ++ thrower :: post, l.isErrorHandler = false) →
      (∀ l ∈ pre, l.onRun = HBehavior.callNext) →
      thrower.onRun = HBehavior.throwError e →
      s.res.sent = false →
      ∃ em, (runPipeline (pre ++ thrower :: post) none s).out = s.out ++ [em] ∧
        em.status = 500 ∧ em.body = some (Payload.jval (internalErrorJson e)) := by
  induction pre with
  | nil =>
    intro thrower post e s hnoerr hpre hthrow hsent
    have hl : thrower.isErrorHandler = false := hnoerr thrower (by simp)
    simp only [List.nil_append, runPipeline, hl, Bool.false_eq_true, if_neg,
      not_false_iff, hthrow, runBehavior]
    rw [runPipeline_unwind post e (invoke s thrower.label none)
      (fun x hx => hnoerr x (by simp [hx]))]
    have hsent2 : (invoke s thrower.label none).res.sent = false := hsent
    simp only [renderError, hsent2, Bool.false_eq_true, if_neg, not_false_iff]
    obtain ⟨em, hout, hst, hb, _, _⟩ :=
      respondJson_spec 500 (internalErrorJson e) (invoke s thrower.label none) hsent2
    exact ⟨em, hout, hst, hb⟩
  | cons p rest ih =>
    intro thrower post e s hnoerr hpre hthrow hsent
    have hl : p.isErrorHandler = false := hnoerr p (by simp)
    have hb : p.onRun = HBehavior.callNext := hpre p (List.mem_cons_self _ _)
    simp only [List.cons_append, runPipeline, hl, Bool.false_eq_true, if_neg,
      not_false_iff, hb, runBehavior]
    exact ih thrower post e (invoke s p.label none)
      (fun x hx => hnoerr x (by simp only [List.cons_append, List.mem_cons]; exact Or.inr hx))
      (fun x hx => hpre x (List.mem_cons_of_mem _ hx)) hthrow hsent

theorem dispatch_uncaught_error_500_witness :
    ∃ em, (runPipeline ([layerA] ++ layerT :: [layerB]) none (initialState .http)).out =
        (initialState .http).out ++ [em] ∧ em.status = 500 ∧
        em.body = some (Payload.jval (internalErrorJson "boom")) :=
  dispatch_uncaught_error_500 [layerA] layerT [layerB] "boom" (initialState .http)
    (by intro l hl
        simp only [List.cons_append, List.nil_append, List.mem_cons,
          List.not_mem_nil, or_false] at hl
        rcases hl with rfl | rfl | rfl <;> rfl)
    (by intro l hl
        simp only [List.mem_cons, List.not_mem_nil, or_false] at hl
        rcases hl with rfl
        rfl)
    rfl rfl

/-- C3: with an error pending, non-error-handler layers are skipped without
being invoked and the error is re-propagated; the first error-handler layer
reached is invoked with the error; with no error pending, error-handler
layers are skipped and never invoked; and if no error handler exists in the
stack, the whole unwind invokes nothing. -/
theorem dispatch_skip_semantics :
    (∀ (l : Layer) (rest : List Layer) (e : String) (s : PipelineState),
        l.isErrorHandler = false →
        runPipeline (l :: rest) (some e) s = runPipeline rest (some e) s)
    ∧ (∀ (l : Layer) (rest : List Layer) (e : String) (s : PipelineState),
        l.isErrorHandler = true →
        (l.label, some e) ∈ (runPipeline (l :: rest) (some e) s).trace)
    ∧ (∀ (l : Layer) (rest : List Layer) (s : PipelineState),
        l.isErrorHandler = true →
        runPipeline (l :: rest) none s = runPipeline rest none s)
    ∧ (∀ (stack : List Layer) (e : String) (s : PipelineState),
        (∀ l ∈ stack, l.isErrorHandler = false) →
        (runPipeline stack (some e) s).trace = s.trace) := by
  refine ⟨?_, ?_, ?_, ?_⟩
  · intro l rest e s hl; simp [runPipeline, hl]
  · intro l rest e s hl
    simp only [runPipeline, hl, if_true]
    rcases hrb : runBehavior (l.onError e) (invoke s l.label (some e)) with ⟨s2, k⟩
    have htr : s2.trace = s.trace ++ [(l.label, some e)] := by
      have h0 := runBehavior_trace (l.onError e) (invoke s l.label (some e))
      rw [hrb] at h0; exact h0
    have hmem : (l.label, some e) ∈ s2.trace := by rw [htr]; simp
    rcases k with _ | nextErr
    · exact hmem
    · exact (runPipeline_trace_grows rest nextErr s2).subset hmem
  · intro l rest s hl; simp [runPipeline, hl]
  · intro stack e s h
    rw [runPipeline_unwind stack e s h, renderError_trace]

theorem dispatch_skip_semantics_witness :
    runPipeline [layerA] (some "boom") (initialState .http) =
      runPipeline [] (some "boom") (initialState .http)
    ∧ (layerE.label, some "boom") ∈
        (runPipeline [layerE] (some "boom") (initialState .http)).trace
    ∧ runPipeline [layerE] none (initialState .http) =
        runPipeline [] none (initialState .http)
    ∧ (runPipeline [layerA, layerB] (some "boom") (initialState .http)).trace =
        (initialState .http).trace :=
  ⟨dispatch_skip_semantics.1 layerA [] "boom" (initialState .http) rfl,
   dispatch_skip_semantics.2.1 layerE [] "boom" (initialState .http) rfl,
   dispatch_skip_semantics.2.2.1 layerE [] (initialState .http) rfl,
   dispatch_skip_semantics.2.2.2 [layerA, layerB] "boom" (initialState .http)
     (by intro l hl
         simp only [List.mem_cons, List.not_mem_nil, or_false] at hl
         rcases hl with rfl | rfl <;> rfl)⟩

/-- C4: `send` is a one-way latch — after a `send` has completed, a second
`send` with any payload is a no-op: the response state is unchanged and
nothing further is emitted through the transport, so the observable output
of calling `send` twice equals the output of calling it once. -/
theorem send_second_call_noop (r : SockressResponse) (p p2 : Option Payload) :
    ((r.send p).1).send p2 = ((r.send p).1, none) :=
  send_already_sent _ _ (send_fst_sent r p)

/-! ## Path matcher (`buildMatcher`)

`buildMatcher` compiles a route pattern into a regex
`^(segments)\/?$` where a literal segment becomes its escaped characters, a
`:key` segment becomes `\/([^/]+)` (optional: `(?:\/([^/]+))?`), and `*`
becomes `\/(.*)`; captured values are passed through `decodeURIComponent`.
The embedding compiles the pattern to a token list and interprets it with
the same greedy/backtracking semantics the regex has on these shapes
(a `[^/]+` capture cannot trade characters with the following tokens, which
all start with `\/` or end the input, so maximal munch is equivalent; the
`(.*)` wildcard backtracks from the longest capture). -/

def utf8EncodeChar (c : Char) : List Nat :=
  let n := c.toNat
  if n < 128 then [n]
  else if n < 2048 then [192 + n / 64, 128 + n % 64]
  else if n < 65536 then [224 + n / 4096, 128 + (n / 64) % 64, 128 + n % 64]
  else [240 + n / 262144, 128 + (n / 4096) % 64, 128 + (n / 64) % 64, 128 + n % 64]

def isContByte (b : Nat) : Bool := 128 ≤ b && b < 192

/-- UTF-8 decoding of a byte list (the second half of `decodeURIComponent`);
`none` models the `URIError` thrown on malformed input. -/
def utf8Decode : List Nat → Option (List Char)
  | [] => some []
  | b :: rest =>
    if b < 128 then
      (utf8Decode rest).map (fun cs => Char.ofNat b :: cs)
    else if b < 194 then none
    else if b < 224 then
      match rest with
      | c1 :: rest2 =>
        if isContByte c1 then
          (utf8Decode rest2).map (fun cs => Char.ofNat ((b - 192) * 64 + (c1 - 128)) :: cs)
        else none
      | [] => none
    else if b < 240 then
      match rest with
      | c1 :: c2 :: rest2 =>
        if isContByte c1 && isContByte c2 then
          let code := (b - 224) * 4096 + (c1 - 128) * 64 + (c2 - 128)
          if 2048 ≤ code && (code < 55296 || 57344 ≤ code) then
            (utf8Decode rest2).map (fun cs => Char.ofNat code :: cs)
          else none
        else none
      | _ => none
    else if b < 245 then
      match rest with
      | c1 :: c2 :: c3 :: rest2 =>
        if isContByte c1 && isContByte c2 && isContByte c3 then
          let code := (b - 240) * 262144 + (c1 - 128) * 4096 + (c2 - 128) * 64 + (c3 - 128)
          if 65536 ≤ code && code < 1114112 then
            (utf8Decode rest2).map (fun cs => Char.ofNat code :: cs)
          else none
        else none
      | _ => none
    else none

def hexVal (c : Char) : Option Nat :=
  if '0' ≤ c ∧ c ≤ '9' then some (c.toNat - 48)
  else if 'a' ≤ c ∧ c ≤ 'f' then some (c.toNat - 87)
  else if 'A' ≤ c ∧ c ≤ 'F' then some (c.toNat - 55)
  else none

/-- Percent-decoding to bytes: `%XX` pairs become the byte `XX`, other
characters contribute their UTF-8 bytes. -/
def percentDecodeBytes : List Char → Option (List Nat)
  | [] => some []
  | '%' :: a :: b :: rest =>
    match hexVal a, hexVal b with
    | some ha, some hb => (percentDecodeBytes rest).map (fun bs => (ha * 16 + hb) :: bs)
    | _, _ => none
  | '%' :: _ => none
  | c :: rest => (percentDecodeBytes rest).map (fun bs => utf8EncodeChar c ++ bs)

/-- `decodeURIComponent` (applied by the matcher to captured values only). -/
def decodeURIComponent (s : List Char) : Option (List Char) :=
  (percentDecodeBytes s).bind utf8Decode

inductive PatToken where
  | lit (chars : List Char)
  | param (key : List Char) (optional : Bool)
  | wildcard
deriving DecidableEq

def splitOnChar (sep : Char) : List Char → List (List Char)
  | [] => [[]]
  | c :: rest =>
    let r := splitOnChar sep rest
    if c = sep then [] :: r
    else
      match r with
      | seg :: segs => (c :: seg) :: segs
      | [] => [[c]]

/-- One segment of the pattern, as `buildMatcher`'s `.map` callback treats
it: empty segments vanish, `:key` (optionally `?`-suffixed) captures, `*`
is the wildcard, anything else is a literal. -/
def segToken (seg : List Char) : Option PatToken :=
  if seg = [] then none
  else if seg = ['*'] then some .wildcard
  else
    match seg with
    | c :: key =>
      if c = ':' then
        if key.getLast? = some '?' then some (.param key.dropLast true)
        else some (.param key false)
      else some (.lit seg)
    | [] => none

def compileTokens (pattern : List Char) : List PatToken :=
  (splitOnChar '/' pattern).filterMap segToken

/-- Match a fixed character sequence at the head of the input. -/
def consume : List Char → List Char → Option (List Char)
  | [], rest => some rest
  | _ :: _, [] => none
  | c :: cs, r :: rs => if r = c then consume cs rs else none

/-- Greedy `(.*)` capture: try each candidate capture length in the given
order (longest first), continuing with `continue0` on the rest. -/
def tryWild (continue0 : List Char → Option (List (List Char × List Char)))
    (chars : List Char) :
    List Nat → Option (List (List Char × List Char))
  | [] => none
  | i :: more =>
    match continue0 (chars.drop i) with
    | some ps => some (("wild".data, chars.take i) :: ps)
    | none => tryWild continue0 chars more

/-- Interpret the compiled tokens against the remaining input; on success,
the captured `(key, raw value)` pairs.  The empty token list corresponds to
the trailing regex `\/?$`. -/
def execTokens : List PatToken → List Char → Option (List (List Char × List Char))
  | [], rest => if rest = [] ∨ rest = ['/'] then some [] else none
  | .lit cs :: ts, rest =>
    match consume ('/' :: cs) rest with
    | some rest2 => execTokens ts rest2
    | none => none
  | .param key opt :: ts, rest =>
    let present :=
      match rest with
      | '/' :: more =>
        let seg := more.takeWhile (fun c => ¬ c = '/')
        let after := more.dropWhile (fun c => ¬ c = '/')
        if seg = [] then none
        else (execTokens ts after).map (fun ps => (key, seg) :: ps)
      | _ => none
    if opt then
      match present with
      | some ps => some ps
      | none => execTokens ts rest
    else present
  | .wildcard :: ts, rest =>
    match rest with
    | '/' :: more =>
      tryWild (fun r => execTokens ts r) more (List.range (more.length + 1)).reverse
    | _ => none

structure PathMatchResult where
  params : List (String × String)
deriving DecidableEq

/-- `PathMatcher` from the source: the raw pattern and the match function. -/
structure PathMatcher where
  raw : String
  matchFn : String → Option PathMatchResult

/-- `incoming.replace(/^\//, '')`. -/
def dropFirstSlash (s : String) : String :=
  match s.data with
  | '/' :: rest => String.mk rest
  | _ => s

/-- Apply `decodeURIComponent` to each captured value (the source decodes
inside the `keys.forEach`; a decode failure there would throw out of the
matcher, modelled as overall `none`). -/
def decodeParams : List (List Char × List Char) → Option (List (String × String))
  | [] => some []
  | (k, v) :: rest =>
    match decodeURIComponent v with
    | some dv => (decodeParams rest).map (fun ps => (String.mk k, String.mk dv) :: ps)
    | none => none

/-- `buildMatcher`: the `*` / `/*` special case captures the undecoded
remainder; otherwise the compiled tokens run against the input (an empty
input is matched as `/`). -/
def buildMatcher (path : String) : PathMatcher :=
  if path = "*" ∨ path = "/*" then
    { raw := path,
      matchFn := fun incoming => some { params := [("wild", dropFirstSlash incoming)] } }
  else
    { raw := path,
      matchFn := fun incoming =>
        let inc := if incoming = "" then "/".data else incoming.data
        match execTokens (compileTokens path.data) inc with
        | some caps =>
          match decodeParams caps with
          | some ps => some { params := ps }
          | none => none
        | none => none }

/-! ### Lemmas for the matcher -/

theorem splitOnChar_no_sep (sep : Char) :
    ∀ l : List Char, sep ∉ l → splitOnChar sep l = [l] := by
  intro l
  induction l with
  | nil => intro _; rfl
  | cons c rest ih =>
    intro h
    have hc : ¬ c = sep := fun hEq => h (hEq ▸ List.mem_cons_self _ _)
    have hr : sep ∉ rest := fun hm => h (List.mem_cons_of_mem _ hm)
    simp only [splitOnChar, hc, if_neg, Bool.false_eq_true, not_false_iff, ih hr]

theorem consume_eq_some (cs : List Char) :
    ∀ (input rest : List Char), consume cs input = some rest ↔ input = cs ++ rest := by
  induction cs with
  | nil =>
    intro input rest
    simp [consume, eq_comm]
  | cons c cs ih =>
    intro input rest
    cases input with
    | nil => simp [consume]
    | cons r rs =>
      simp only [consume, List.cons_append, List.cons.injEq]
      by_cases h : r = c
      · subst h; simp [ih]
      · simp [h, Ne.symm h]

/-! ### Claim C8 -/

/-- C8 counterexample: the literal pattern `/abc` rejects the input
`/%61bc` although that input percent-decodes to `/abc`; so literal segments
are not compared by percent-decoded equality.  (The third conjunct shows the
raw spelling does match.) -/
theorem literal_match_counterexample :
    (buildMatcher "/abc").matchFn "/%61bc" = none
    ∧ decodeURIComponent "/%61bc".data = some "/abc".data
    ∧ ((buildMatcher "/abc").matchFn "/abc").isSome = true := by
  refine ⟨?_, ?_, ?_⟩ <;> decide

/-- C8 (amended): the matcher compares literal segments against the raw,
undecoded input, case-sensitively: a single-literal pattern matches input
`/seg` exactly when `seg` spells the literal character-for-character
(percent-decoding is applied only to captured parameter values). -/
theorem literal_segment_raw_equality (lit seg : String)
    (hne : lit.data ≠ []) (hslash : '/' ∉ lit.data)
    (hcolon : lit.data.head? ≠ some ':') (hstar : lit ≠ "*")
    (hseg : '/' ∉ seg.data) :
    ((buildMatcher ("/" ++ lit)).matchFn ("/" ++ seg)).isSome ↔ seg = lit := by
  have hdata : ("/" ++ lit).data = '/' :: lit.data := by
    simp [String.data_append]
  have hsegdata : ("/" ++ seg).data = '/' :: seg.data := by
    simp [String.data_append]
  have hnot1 : ¬ ("/" ++ lit) = "*" := by
    intro h
    have h2 := congrArg String.data h
    rw [hdata] at h2
    simp at h2
  have hnot2 : ¬ ("/" ++ lit) = "/*" := by
    intro h
    apply hstar
    have h2 := congrArg String.data h
    rw [hdata] at h2
    apply String.ext
    simpa using h2
  have hsegne : ¬ ("/" ++ seg) = "" := by
    intro h
    have h2 := congrArg String.data h
    rw [hsegdata] at h2
    simp at h2
  have hstok : segToken lit.data = some (PatToken.lit lit.data) := by
    rcases hld : lit.data with _ | ⟨c, cs⟩
    · exact absurd hld hne
    · have hcnc : ¬ c = ':' := by
        intro h; subst h; rw [hld] at hcolon; simp at hcolon
      have hnstar : ¬ (c :: cs = ['*']) := by
        intro h
        apply hstar
        apply String.ext
        rw [hld, h]
      unfold segToken
      rw [if_neg (by simp), if_neg hnstar]
      simp only [if_neg hcnc]
  have htok : compileTokens ("/" ++ lit).data = [PatToken.lit lit.data] := by
    rw [hdata]
    show (splitOnChar '/' ('/' :: lit.data)).filterMap segToken = _
    have hsp : splitOnChar '/' ('/' :: lit.data) = [] :: splitOnChar '/' lit.data := by
      simp [splitOnChar]
    rw [hsp, splitOnChar_no_sep '/' lit.data hslash,
      List.filterMap_cons_none (show segToken [] = none from rfl),
      List.filterMap_cons_some hstok, List.filterMap_nil]
  have hexec : execTokens [PatToken.lit lit.data] ('/' :: seg.data) =
      match consume lit.data seg.data with
      | some rest2 => execTokens [] rest2
      | none => none := by
    simp [execTokens, consume]
  rw [buildMatcher, if_neg (by simp [hnot1, hnot2])]
  simp only
  rw [if_neg hsegne, htok, hsegdata, hexec]
  rcases hc : consume lit.data seg.data with _ | rest
  · simp only [Option.isSome_none, Bool.false_eq_true, false_iff]
    intro hEq
    have hsome : consume lit.data seg.data = some [] :=
      (consume_eq_some _ _ _).mpr (by rw [hEq, List.append_nil])
    rw [hsome] at hc
    exact Option.noConfusion hc
  · have hsegEq : seg.data = lit.data ++ rest := (consume_eq_some _ _ _).mp hc
    by_cases h0 : rest = [] ∨ rest = ['/']
    · rcases h0 with h0 | h0
      · subst h0
        have hEq : seg = lit := by
          apply String.ext
          rw [hsegEq, List.append_nil]
        simp [execTokens, decodeParams, hEq]
      · exfalso
        apply hseg
        rw [hsegEq, h0]
        simp
    · have hnone : execTokens [] rest = none := by
        simp only [execTokens, if_neg h0]
      simp only [hnone, Option.isSome_none, Bool.false_eq_true, false_iff]
      intro hEq
      subst hEq
      apply h0
      left
      have hlen := congrArg List.length hsegEq
      simp only [List.length_append] at hlen
      have : rest.length = 0 := by omega
      exact List.length_eq_zero.mp this

theorem literal_segment_raw_equality_witness :
    (((buildMatcher ("/" ++ "users")).matchFn ("/" ++ "users")).isSome ↔
      ("users" : String) = "users") ∧
    (((buildMatcher ("/" ++ "users")).matchFn ("/" ++ "Users")).isSome ↔
      ("Users" : String) = "users") :=
  ⟨literal_segment_raw_equality "users" "users" (by decide) (by decide) (by decide)
      (by decide) (by decide),
   literal_segment_raw_equality "users" "Users" (by decide) (by decide) (by decide)
      (by decide) (by decide)⟩

/-! ## Upgrade handshake origin check (claim C9) -/

/-- The `origin` field of the CORS options: `'*'`, one origin, or a list. -/
inductive OriginConfig where
  | any
  | single (origin : String)
  | list (origins : List String)
deriving DecidableEq

/-- `isOriginAllowed`: a falsy (absent or empty) `Origin` header or the `*`
configuration always passes; an array allow-list is membership; a single
configured origin is string equality. -/
def isOriginAllowed (originHeader : Option String) (allowed : OriginConfig) : Bool :=
  if originHeader = none ∨ originHeader = some "" ∨ allowed = OriginConfig.any then true
  else
    match allowed with
    | .any => true
    | .list origins => origins.contains (originHeader.getD "")
    | .single origin => origin = originHeader.getD ""

inductive UpgradeOutcome where
  | destroyedPath
  | destroyedOrigin
  | accepted
deriving DecidableEq

/-- The `upgrade` handler in `SockressApp.listen`: destroy the connection on
a socket-path mismatch, else destroy it when the origin check fails, else
complete the handshake. -/
def upgradeDecision (pathname socketPath : String) (origin : Option String)
    (allowed : OriginConfig) : UpgradeOutcome :=
  if ¬ pathname = socketPath then .destroyedPath
  else if ¬ isOriginAllowed origin allowed then .destroyedOrigin
  else .accepted

/-- C9: for every configured CORS origin allow-list, an upgrade request with
no `Origin` header passes the origin check and is accepted when the path
matches; the connection is destroyed for origin reasons exactly when an
`Origin` header is present and fails the allow-list check. -/
theorem upgrade_absent_origin_accepted (allowed : OriginConfig) (p : String)
    (o : String) :
    isOriginAllowed none allowed = true
    ∧ upgradeDecision p p none allowed = UpgradeOutcome.accepted
    ∧ (upgradeDecision p p (some o) allowed = UpgradeOutcome.destroyedOrigin ↔
        isOriginAllowed (some o) allowed = false) := by
  refine ⟨?_, ?_, ?_⟩
  · simp [isOriginAllowed]
  · simp [upgradeDecision, isOriginAllowed]
  · constructor
    · intro h
      by_contra hfalse
      simp only [Bool.not_eq_false] at hfalse
      simp [upgradeDecision, hfalse] at h
    · intro h
      simp [upgradeDecision, h]

/-! ## Socket envelope handling (claim C10)

`handleSocket` parses each text frame; a `request`-typed envelope is turned
into a `SockressRequest` whose id is `payload.id ?? nanoid()` and dispatched
through `runPipeline` with a socket-mode response bound to that id (only the
fields the modelled claims consult are carried; `headers`, `query`, `body`
and cookies are processed by code none of the claims depend on). -/

structure IncomingSocketMessage where
  type : String
  id : Option String
  method : Option String
  path : Option String
deriving DecidableEq

/-- `payload.id ?? nanoid()`. -/
def socketRequestId (msgId : Option String) (freshId : String) : String :=
  msgId.getD freshId

structure SocketDispatchResult where
  requestId : String
  state : PipelineState

/-- Dispatch of one inbound envelope: non-`request` types are answered with
an error envelope and never dispatched (`none` here); `request` envelopes
run the pipeline against a socket-mode response carrying the request id. -/
def handleSocketMessage (stack : List Layer) (cors : CorsOptions)
    (allowedOrigin : String) (msg : IncomingSocketMessage) (freshId : String) :
    Option SocketDispatchResult :=
  if ¬ msg.type = "request" then none
  else
    let rid := socketRequestId msg.id freshId
    let res : SockressResponse :=
      { mode := .socket rid, cors := cors, allowedOrigin := allowedOrigin }
    some { requestId := rid,
           state := runPipeline stack none { res := res, out := [], trace := [] } }

/-! ### The pipeline never changes the transport an emission goes through -/

theorem respondJson_out_mem (st : Nat) (b : JValue) (s : PipelineState) :
    ∀ e ∈ (respondJson st b s).out, e ∈ s.out ∨ e.transport = s.res.mode := by
  by_cases h : s.res.sent = true
  · have hout : (respondJson st b s).out = s.out := by
      simp [respondJson, SockressResponse.json,
        send_already_sent _ _ (show ((s.res.status st).setHeader "content-type"
          "application/json; charset=utf-8").sent = true from h)]
    rw [hout]
    exact fun e he => Or.inl he
  · simp only [Bool.not_eq_true] at h
    obtain ⟨em, hout, _, _, htr, _⟩ := respondJson_spec st b s h
    rw [hout]
    intro e he
    rcases List.mem_append.mp he with h1 | h2
    · exact Or.inl h1
    · rw [List.mem_singleton.mp h2]
      exact Or.inr htr

theorem runBehavior_res_mode (b : HBehavior) (s : PipelineState) :
    ((runBehavior b s).1).res.mode = s.res.mode := by
  cases b <;> simp [runBehavior, respondJson_mode]

theorem runBehavior_out_mem (b : HBehavior) (s : PipelineState) :
    ∀ e ∈ ((runBehavior b s).1).out, e ∈ s.out ∨ e.transport = s.res.mode := by
  cases b <;> simp only [runBehavior] <;>
    first
    | exact fun e he => Or.inl he
    | exact respondJson_out_mem _ _ s

theorem renderError_res_mode (e : String) (s : PipelineState) :
    (renderError e s).res.mode = s.res.mode := by
  unfold renderError; split
  · rfl
  · exact respondJson_mode _ _ s

theorem renderError_out_mem (e0 : String) (s : PipelineState) :
    ∀ e ∈ (renderError e0 s).out, e ∈ s.out ∨ e.transport = s.res.mode := by
  unfold renderError; split
  · exact fun e he => Or.inl he
  · exact respondJson_out_mem _ _ s

/-- The transport of everything the pipeline emits is the response's
construction-time mode, which the pipeline never changes. -/
theorem runPipeline_transport (stack : List Layer) :
    ∀ (err : Option String) (s : PipelineState),
      (runPipeline stack err s).res.mode = s.res.mode ∧
      (∀ e ∈ (runPipeline stack err s).out, e ∈ s.out ∨ e.transport = s.res.mode) := by
  induction stack with
  | nil =>
    intro err s
    rcases err with _ | e0
    · simp only [runPipeline]
      split
      · exact ⟨rfl, fun e he => Or.inl he⟩
      · exact ⟨respondJson_mode _ _ s, respondJson_out_mem _ _ s⟩
    · exact ⟨renderError_res_mode _ s, renderError_out_mem _ s⟩
  | cons l rest ih =>
    intro err s
    have step :
        ∀ (b : HBehavior) (lab : Nat) (er : Option String),
          ((match runBehavior b (invoke s lab er) with
            | (s2, some nextErr) => runPipeline rest nextErr s2
            | (s2, none) => s2).res.mode = s.res.mode ∧
          ∀ e ∈ (match runBehavior b (invoke s lab er) with
            | (s2, some nextErr) => runPipeline rest nextErr s2
            | (s2, none) => s2).out, e ∈ s.out ∨ e.transport = s.res.mode) := by
      intro b lab er
      rcases hrb : runBehavior b (invoke s lab er) with ⟨s2, k⟩
      have hmode2 : s2.res.mode = s.res.mode := by
        have h0 := runBehavior_res_mode b (invoke s lab er)
        rw [hrb] at h0; exact h0
      have hout2 : ∀ e ∈ s2.out, e ∈ s.out ∨ e.transport = s.res.mode := by
        have h0 := runBehavior_out_mem b (invoke s lab er)
        rw [hrb] at h0; exact h0
      rcases k with _ | nextErr
      · exact ⟨hmode2, hout2⟩
      · obtain ⟨hm, ho⟩ := ih nextErr s2
        refine ⟨by rw [hm, hmode2], ?_⟩
        intro e he
        rcases ho e he with h1 | h2
        · exact hout2 e h1
        · exact Or.inr (by rw [h2, hmode2])
    rcases err with _ | e0
    · by_cases hl : l.isErrorHandler = true
      · simp only [runPipeline, hl, if_true]
        exact ih none s
      · simp only [Bool.not_eq_true] at hl
        simp only [runPipeline, hl, Bool.false_eq_true, if_neg, not_false_iff]
        exact step l.onRun l.label none
    · by_cases hl : l.isErrorHandler = true
      · simp only [runPipeline, hl, if_true]
        exact step (l.onError e0) l.label (some e0)
      · simp only [Bool.not_eq_true] at hl
        simp only [runPipeline, hl, Bool.false_eq_true, if_neg, not_false_iff]
        exact ih (some e0) s

/-- C10: a `request` envelope without an id is still dispatched as a normal
request, under a freshly generated server-side id; every response envelope
it emits is tagged with that fresh id — an id the client never sent, so it
matches no pending client request. -/
theorem socket_request_missing_id (stack : List Layer) (cors : CorsOptions)
    (ao : String) (msg : IncomingSocketMessage) (freshId : String)
    (htype : msg.type = "request") (hid : msg.id = none) :
    ∃ r, handleSocketMessage stack cors ao msg freshId = some r ∧
      r.requestId = freshId ∧
      (∀ e ∈ r.state.out, e.transport = RequestMode.socket freshId) ∧
      (∀ sentIds : List String, freshId ∉ sentIds →
        ∀ e ∈ r.state.out, ∀ cid ∈ sentIds, ¬ e.transport = RequestMode.socket cid) := by
  have hrid : socketRequestId msg.id freshId = freshId := by
    rw [hid]; rfl
  have hmsg : handleSocketMessage stack cors ao msg freshId =
      some { requestId := socketRequestId msg.id freshId,
             state := runPipeline stack none
               { res := { mode := .socket (socketRequestId msg.id freshId),
                          cors := cors, allowedOrigin := ao },
                 out := [], trace := [] } } := by
    unfold handleSocketMessage
    rw [if_neg (by simp [htype])]
  refine ⟨_, hmsg, ?_, ?_, ?_⟩
  · exact hrid
  · intro e he
    obtain ⟨_, ho⟩ := runPipeline_transport stack none
      { res := { mode := .socket (socketRequestId msg.id freshId), cors := cors,
                 allowedOrigin := ao },
        out := [], trace := [] }
    rcases ho e he with h1 | h2
    · exact absurd h1 (List.not_mem_nil e)
    · rw [h2, hrid]
  · intro sentIds hfresh e he cid hcid hEq
    obtain ⟨_, ho⟩ := runPipeline_transport stack none
      { res := { mode := .socket (socketRequestId msg.id freshId), cors := cors,
                 allowedOrigin := ao },
        out := [], trace := [] }
    rcases ho e he with h1 | h2
    · exact absurd h1 (List.not_mem_nil e)
    · rw [h2, hrid] at hEq
      exact hfresh (by rw [RequestMode.socket.injEq] at hEq; rw [hEq]; exact hcid)

def layerR : Layer :=
  { label := 4, isErrorHandler := false,
    onRun := .respond 200 (.obj [("ok", .bool true)]),
    onError := fun _ => .callNext }

def msgNoId : IncomingSocketMessage :=
  { type := "request", id := none, method := some "GET", path := some "/ping" }

theorem socket_request_missing_id_witness :
    ∃ r, handleSocketMessage [layerR] corsDefault "*" msgNoId "srv-1" = some r ∧
      r.requestId = "srv-1" ∧
      (∀ e ∈ r.state.out, e.transport = RequestMode.socket "srv-1") ∧
      (∀ sentIds : List String, "srv-1" ∉ sentIds →
        ∀ e ∈ r.state.out, ∀ cid ∈ sentIds,
          ¬ e.transport = RequestMode.socket cid) :=
  socket_request_missing_id [layerR] corsDefault "*" msgNoId "srv-1" rfl rfl

/-! ## Client transport controller (src/client/src/index.ts)

`SockressClient.request` normalizes the call options (method defaulting and
upper-casing, leading slash, merged headers, stringified query, timeout
defaulting), attempts the socket transport when `preferSocket` and
`socketEnabled` hold, and on any socket failure retries the same logical
request over HTTP unless `disableHttpFallback` was set for that call.  The
two transports are modelled as oracles over the normalized logical request;
a socket failure (factory throwing in `connect`, the
`Socket transport is unavailable` error, or the request timeout) is the
`Except.error` outcome of the socket oracle. -/

inductive QPrim where
  | s (v : String)
  | n (v : Int)
  | b (v : Bool)
deriving DecidableEq

/-- Raw query values accepted by the client API
(`string | number | boolean | Array<...>`). -/
inductive QVal where
  | prim (p : QPrim)
  | arr (l : List QPrim)
deriving DecidableEq

/-- JS `String(value)` on the primitive query values. -/
def qprimToString : QPrim → String
  | .s v => v
  | .n v => toString v
  | .b v => if v then "true" else "false"

inductive NormalizedQueryVal where
  | single (s : String)
  | multi (l : List String)
deriving DecidableEq

/-- `normalizeQuery`. -/
def normalizeQuery (query : List (String × QVal)) : List (String × NormalizedQueryVal) :=
  query.map (fun kv =>
    match kv.2 with
    | .prim p => (kv.1, .single (qprimToString p))
    | .arr l => (kv.1, .multi (l.map qprimToString)))

/-- `normalizePath`: ensure a leading slash. -/
def normalizePath (path : String) : String :=
  if ¬ path.startsWith "/" then "/" ++ path else path

/-- JS object spread `{...base, ...extra}`. -/
def mergeHeaders (base extra : List (String × String)) : List (String × String) :=
  extra.foldl (fun acc kv => setAssoc acc kv.1 kv.2) base

/-- The client options after `normalizeOptions` (client side). -/
structure ClientConfig where
  headers : List (String × String)
  timeout : Nat
  reconnectInterval : Nat
  maxReconnectInterval : Nat
  preferSocket : Bool
deriving DecidableEq

/-- The client option defaults of `normalizeOptions`. -/
def clientConfigDefault : ClientConfig :=
  { headers := [], timeout := 15000, reconnectInterval := 1000,
    maxReconnectInterval := 15000, preferSocket := true }

structure ClientRequestOptions (β : Type) where
  path : String
  method : Option String := none
  headers : List (String × String) := []
  query : Option (List (String × QVal)) := none
  body : Option β := none
  timeout : Option Nat := none
  disableHttpFallback : Bool := false

/-- The logical request both transports receive: same method, path, merged
headers, normalized query, body and effective timeout. -/
structure LogicalRequest (β : Type) where
  method : String
  path : String
  headers : List (String × String)
  query : Option (List (String × NormalizedQueryVal))
  body : Option β
  timeout : Nat

/-- The `SockressClientResponse` shape produced by both transports. -/
structure ClientResponse where
  status : Nat
  ok : Bool
  headers : List (String × String)
  body : Option JValue

/-- The normalization prologue of `SockressClient.request`. -/
def normalizeRequest {β : Type} (cfg : ClientConfig) (opts : ClientRequestOptions β) :
    LogicalRequest β :=
  { method := (if (opts.method.getD "") = "" then "GET" else opts.method.getD "").toUpper,
    path := normalizePath opts.path,
    headers := mergeHeaders cfg.headers opts.headers,
    query := opts.query.map normalizeQuery,
    body := opts.body,
    timeout := opts.timeout.getD cfg.timeout }

/-- `SockressClient.request`: try the socket transport when socket-preferred
and enabled; rethrow its failure only when `disableHttpFallback` is set,
otherwise (and on non-socket-preferred calls) go over HTTP. -/
def clientRequest {β : Type} (cfg : ClientConfig) (socketEnabled : Bool)
    (socketTransport : LogicalRequest β → Except String ClientResponse)
    (httpTransport : LogicalRequest β → ClientResponse)
    (opts : ClientRequestOptions β) : Except String ClientResponse :=
  let lreq := normalizeRequest cfg opts
  if cfg.preferSocket && socketEnabled then
    match socketTransport lreq with
    | .ok r => .ok r
    | .error e =>
      if opts.disableHttpFallback then .error e
      else .ok (httpTransport lreq)
  else .ok (httpTransport lreq)

/-- C5: with `preferSocket` on and the socket transport enabled, when the
socket attempt fails (construction throw or timeout) and HTTP fallback is
not disabled for the call, the very same normalized logical request is
retried over the HTTP transport and the call completes with the HTTP
transport's response (a `ClientResponse`, the same shape a socket-completed
request resolves to). -/
theorem socket_failure_http_fallback {β : Type} (cfg : ClientConfig)
    (socketEnabled : Bool)
    (socketTransport : LogicalRequest β → Except String ClientResponse)
    (httpTransport : LogicalRequest β → ClientResponse)
    (opts : ClientRequestOptions β) (err : String)
    (hprefer : cfg.preferSocket = true) (hen : socketEnabled = true)
    (hfb : opts.disableHttpFallback = false)
    (hfail : socketTransport (normalizeRequest cfg opts) = .error err) :
    clientRequest cfg socketEnabled socketTransport httpTransport opts =
      .ok (httpTransport (normalizeRequest cfg opts)) := by
  simp [clientRequest, hprefer, hen, hfail, hfb]

def fallbackOpts : ClientRequestOptions JValue :=
  { path := "ping", method := some "get", body := some (.str "x") }

def socketAlwaysDown (_ : LogicalRequest JValue) : Except String ClientResponse :=
  .error "Socket transport is unavailable"

def httpEcho (lr : LogicalRequest JValue) : ClientResponse :=
  { status := 200, ok := true, headers := [], body := some (.str lr.path) }

theorem socket_failure_http_fallback_witness :
    clientRequest clientConfigDefault true socketAlwaysDown httpEcho fallbackOpts =
      .ok (httpEcho (normalizeRequest clientConfigDefault fallbackOpts)) :=
  socket_failure_http_fallback clientConfigDefault true socketAlwaysDown httpEcho
    fallbackOpts "Socket transport is unavailable" rfl rfl rfl rfl

/-! ## Reconnect scheduling (claim C6)

`attachSocketHandlers` installs:
`handleOpen` (reset attempt counter, flush queue),
`handleError` (emit `error`, reject all pending) and
`handleClose` (emit `close`, reject all pending, `scheduleReconnect`).
Only the close handler calls `scheduleReconnect`. -/

/-- The client connection state consulted by the socket event handlers.
`socketEnabled` is cleared by `close()`, so `socketEnabled = true` models a
client that was not explicitly closed. -/
structure ClientState where
  reconnectAttempts : Nat
  pending : List String
  socketEnabled : Bool
  hasWsFactory : Bool
deriving DecidableEq

structure SocketEventResult where
  state : ClientState
  rejected : List String
  scheduledDelay : Option Nat
deriving DecidableEq

/-- `scheduleReconnect`: no-op when `socketEnabled` is off or no factory
exists; otherwise increment the attempt counter and set a timer for
`min(reconnectInterval * attempts, maxReconnectInterval)`. -/
def scheduleReconnect (cfg : ClientConfig) (s : ClientState) :
    ClientState × Option Nat :=
  if ¬ s.socketEnabled ∨ ¬ s.hasWsFactory then (s, none)
  else
    let attempts := s.reconnectAttempts + 1
    ({ s with reconnectAttempts := attempts },
     some (min (cfg.reconnectInterval * attempts) cfg.maxReconnectInterval))

/-- The close handler: reject all pending requests, then schedule a
reconnect. -/
def handleClose (cfg : ClientConfig) (s : ClientState) : SocketEventResult :=
  let rejected := s.pending
  let s1 : ClientState := { s with pending := [] }
  let p := scheduleReconnect cfg s1
  { state := p.1, rejected := rejected, scheduledDelay := p.2 }

/-- The error handler: reject all pending requests; it does not call
`scheduleReconnect`. -/
def handleError (s : ClientState) : SocketEventResult :=
  { state := { s with pending := [] }, rejected := s.pending,
    scheduledDelay := none }

/-- The open handler resets the reconnect attempt counter. -/
def handleOpen (s : ClientState) : ClientState :=
  { s with reconnectAttempts := 0 }

def reconnectState : ClientState :=
  { reconnectAttempts := 0, pending := ["req-1"], socketEnabled := true,
    hasWsFactory := true }

/-- C6 counterexample: on a transport-level error event (client not closed,
factory present, one pending request) the pending request is rejected but no
reconnect is scheduled — the claimed delay `min(interval × 1, max)` is not
set; the close handler, by contrast, does schedule it. -/
theorem reconnect_on_error_counterexample :
    (handleError reconnectState).rejected = ["req-1"]
    ∧ (handleError reconnectState).scheduledDelay = none
    ∧ ¬ (handleError reconnectState).scheduledDelay =
        some (min (clientConfigDefault.reconnectInterval * 1)
          clientConfigDefault.maxReconnectInterval)
    ∧ (handleClose clientConfigDefault reconnectState).scheduledDelay =
        some (min (clientConfigDefault.reconnectInterval * 1)
          clientConfigDefault.maxReconnectInterval) := by
  refine ⟨rfl, rfl, by decide, by decide⟩

/-- C6 (amended): on a transport-level close event while the client is not
closed, every pending correlated request is rejected and a reconnect is
scheduled after `min(reconnectInterval × attemptNumber, maxReconnectInterval)`
with the attempt counter incremented; the counter resets to zero when a
connection opens.  On a transport-level error event, every pending request
is rejected, but the error handler schedules no reconnect itself
(reconnection is driven by the accompanying close event). -/
theorem reconnect_backoff_semantics (cfg : ClientConfig) (s : ClientState)
    (hen : s.socketEnabled = true) (hfac : s.hasWsFactory = true) :
    (handleClose cfg s).rejected = s.pending
    ∧ (handleClose cfg s).state.pending = []
    ∧ (handleClose cfg s).state.reconnectAttempts = s.reconnectAttempts + 1
    ∧ (handleClose cfg s).scheduledDelay =
        some (min (cfg.reconnectInterval * (s.reconnectAttempts + 1))
          cfg.maxReconnectInterval)
    ∧ (handleError s).rejected = s.pending
    ∧ (handleError s).state.pending = []
    ∧ (handleError s).scheduledDelay = none
    ∧ (handleOpen s).reconnectAttempts = 0 := by
  refine ⟨rfl, ?_, ?_, ?_, rfl, rfl, rfl, rfl⟩ <;>
    simp [handleClose, scheduleReconnect, hen, hfac]

theorem reconnect_backoff_semantics_witness :
    (handleClose clientConfigDefault reconnectState).rejected =
        reconnectState.pending
    ∧ (handleClose clientConfigDefault reconnectState).state.pending = []
    ∧ (handleClose clientConfigDefault reconnectState).state.reconnectAttempts =
        reconnectState.reconnectAttempts + 1
    ∧ (handleClose clientConfigDefault reconnectState).scheduledDelay =
        some (min (clientConfigDefault.reconnectInterval *
          (reconnectState.reconnectAttempts + 1))
          clientConfigDefault.maxReconnectInterval)
    ∧ (handleError reconnectState).rejected = reconnectState.pending
    ∧ (handleError reconnectState).state.pending = []
    ∧ (handleError reconnectState).scheduledDelay = none
    ∧ (handleOpen reconnectState).reconnectAttempts = 0 :=
  reconnect_backoff_semantics clientConfigDefault reconnectState rfl rfl

/-! ## Base64 (client `arrayBufferToBase64`, server `Buffer.from(data, 'base64')`) -/

end Sockress
